import Mathlib

/-
  Verification development for the Superjoin sync engine
  (Google Sheets <-> MySQL bidirectional reconciler).

  The definitions below are a shallow embedding of the TypeScript source:
  - cdcMonitor.ts (CDCMonitor class: poll loop, diff, bootstrap sync,
    rate-limit backoff, pending-change queues, outbound synchronizer),
  - the webhook controller (handleWebhook input validation and
    IgnoreMark check),
  - the SQL controller (executeSQL per-cell lock acquisition), and
  - sheetUpdateWorker.ts (job-queue worker flow).

  JavaScript Maps keyed by the canonical cell key "row:col" are embedded
  as association lists with no duplicate keys; machine integers are Nat,
  cell values are String.
-/

/-- Canonical cell key, the string form used by every Map in the source:
for row number r and column letter c the key is the TypeScript template
string interpolation of r, a colon, and c. -/
def cellKey (row : Nat) (col : String) : String :=
  toString row ++ ":" ++ col

/-- In-memory snapshot of the sheet, the JS Map from cell key to cell
value (field lastSnapshot of CDCMonitor, and the cellMap built by
fetchSheetData).  Embedded as an association list. -/
abbrev Snapshot := List (String × String)

/-- Keys of a snapshot, in iteration order. -/
def snapKeys (s : Snapshot) : List String :=
  s.map Prod.fst

/-- Map.get: the first binding of the key, if any. -/
def snapGet : Snapshot → String → Option String
  | [], _ => none
  | kv :: rest, key => if kv.1 = key then some kv.2 else snapGet rest key

/-- The JS idiom map.get(key) with a fallback to the empty string
(the expression this.lastSnapshot.get(key) or-else empty). -/
def snapGetD (s : Snapshot) (key : String) : String :=
  (snapGet s key).getD ""

/-- Map.has. -/
def snapHas (s : Snapshot) (key : String) : Bool :=
  (snapGet s key).isSome

/-- Map.set: overwrite the binding in place if the key is present,
otherwise append at the end. -/
def snapSet : Snapshot → String → String → Snapshot
  | [], key, v => [(key, v)]
  | kv :: rest, key, v =>
      if kv.1 = key then (key, v) :: rest else kv :: snapSet rest key v

theorem snapGet_eq_some_iff {s : Snapshot} (h : (snapKeys s).Nodup)
    {k v : String} : snapGet s k = some v ↔ (k, v) ∈ s := by
  induction s with
  | nil => simp [snapGet]
  | cons kv rest ih =>
      obtain ⟨a, b⟩ := kv
      simp only [snapKeys, List.map_cons, List.nodup_cons] at h
      obtain ⟨hk, hrest⟩ := h
      simp only [snapGet, List.mem_cons]
      by_cases hek : a = k
      · subst hek
        simp only [if_pos rfl]
        constructor
        · rintro hv
          left
          cases hv
          rfl
        · rintro (hv | hv)
          · cases hv
            rfl
          · exact absurd (List.mem_map_of_mem Prod.fst hv) hk
      · rw [if_neg hek, ih hrest]
        constructor
        · exact fun hv => Or.inr hv
        · rintro (hv | hv)
          · cases hv
            exact absurd rfl hek
          · exact hv

theorem snapGet_eq_none_iff {s : Snapshot} {k : String} :
    snapGet s k = none ↔ k ∉ snapKeys s := by
  induction s with
  | nil => simp [snapGet, snapKeys]
  | cons kv rest ih =>
      obtain ⟨a, b⟩ := kv
      simp only [snapGet, snapKeys, List.map_cons, List.mem_cons]
      by_cases hek : a = k
      · subst hek
        simp
      · rw [if_neg hek]
        rw [snapKeys] at ih
        rw [ih]
        constructor
        · intro hn hc
          rcases hc with hc | hc
          · exact hek hc.symm
          · exact hn hc
        · intro hn hc
          exact hn (Or.inr hc)

theorem snapKeys_nodup_of_perm {s t : Snapshot} (h : (snapKeys s).Nodup)
    (hp : s.Perm t) : (snapKeys t).Nodup :=
  ((hp.map Prod.fst).nodup_iff).mp h

theorem snapGet_perm {s t : Snapshot} (h : (snapKeys s).Nodup)
    (hp : s.Perm t) (k : String) : snapGet s k = snapGet t k := by
  have ht : (snapKeys t).Nodup := snapKeys_nodup_of_perm h hp
  cases hs : snapGet s k with
  | some v =>
      have hm : (k, v) ∈ s := (snapGet_eq_some_iff h).mp hs
      exact ((snapGet_eq_some_iff ht).mpr (hp.subset hm)).symm
  | none =>
      cases hts : snapGet t k with
      | none => rfl
      | some v =>
          have hm : (k, v) ∈ t := (snapGet_eq_some_iff ht).mp hts
          have hms : (k, v) ∈ s := hp.symm.subset hm
          rw [(snapGet_eq_some_iff h).mpr hms] at hs
          cases hs

/-- A change record pushed by the diff phase of CDCMonitor.pollForChanges.
The source stores row and col separately (recovered by splitting the key
on the colon); the key together with oldValue and newValue carries the
same information. -/
structure Change where
  key : String
  oldValue : String
  newValue : String
deriving DecidableEq

/-- The diff computed by CDCMonitor.pollForChanges between the previous
snapshot (lastSnapshot) and the freshly fetched data (currentData):
first, for every entry of currentData whose value differs from the
previous value (empty string when absent), a change; second, for every
entry of lastSnapshot with a non-empty value whose key is absent from
currentData, a deletion (newValue empty). -/
def pollForChangesDiff (lastSnapshot currentData : Snapshot) : List Change :=
  currentData.filterMap (fun kv =>
    let oldValue := snapGetD lastSnapshot kv.1
    if oldValue = kv.2 then none else some ⟨kv.1, oldValue, kv.2⟩)
  ++ lastSnapshot.filterMap (fun kv =>
    if snapHas currentData kv.1 = false ∧ kv.2 ≠ "" then
      some ⟨kv.1, kv.2, ""⟩
    else none)

theorem mem_pollForChangesDiff {P C : Snapshot} (hP : (snapKeys P).Nodup)
    (hC : (snapKeys C).Nodup) (c : Change) :
    c ∈ pollForChangesDiff P C ↔
      ((snapGet C c.key = some c.newValue ∧ snapGetD P c.key = c.oldValue ∧
        c.oldValue ≠ c.newValue) ∨
       (snapGet C c.key = none ∧ snapGet P c.key = some c.oldValue ∧
        c.oldValue ≠ "" ∧ c.newValue = "")) := by
  obtain ⟨k, ov, nv⟩ := c
  simp only [pollForChangesDiff, List.mem_append, List.mem_filterMap]
  constructor
  · rintro (⟨⟨a, b⟩, hmem, hf⟩ | ⟨⟨a, b⟩, hmem, hf⟩)
    · by_cases hcond : snapGetD P a = b
      · simp [hcond] at hf
      · simp only [if_neg hcond, Option.some.injEq, Change.mk.injEq] at hf
        obtain ⟨rfl, rfl, rfl⟩ := hf
        left
        exact ⟨(snapGet_eq_some_iff hC).mpr hmem, rfl, hcond⟩
    · by_cases hcond : snapHas C a = false ∧ b ≠ ""
      · simp only [if_pos hcond, Option.some.injEq, Change.mk.injEq] at hf
        obtain ⟨rfl, rfl, rfl⟩ := hf
        right
        refine ⟨?_, (snapGet_eq_some_iff hP).mpr hmem, hcond.2, rfl⟩
        have h1 := hcond.1
        rw [snapHas] at h1
        cases hg : snapGet C a with
        | none => rfl
        | some w =>
            rw [hg] at h1
            simp at h1
      · simp [hcond] at hf
  · rintro (⟨hg, hold, hne⟩ | ⟨hgc, hgp, hne, hnv⟩)
    · left
      refine ⟨(k, nv), (snapGet_eq_some_iff hC).mp hg, ?_⟩
      simp only [hold, if_neg hne]
    · right
      refine ⟨(k, ov), (snapGet_eq_some_iff hP).mp hgp, ?_⟩
      have hhas : snapHas C k = false := by simp [snapHas, hgc]
      subst hnv
      simp [hhas, hne]

/-- Claim C4: the poll-loop diff of a snapshot against itself emits no
changes and no deletions, and for any two snapshots the set of emitted
changes depends only on the key-value contents of the maps (it is
invariant under permutation of the entries), not on iteration order. -/
theorem pollForChangesDiff_stable :
    (∀ S : Snapshot, (snapKeys S).Nodup → pollForChangesDiff S S = []) ∧
    (∀ P C Pb Cb : Snapshot, (snapKeys P).Nodup → (snapKeys C).Nodup →
      P.Perm Pb → C.Perm Cb →
      ∀ c : Change,
        (c ∈ pollForChangesDiff P C ↔ c ∈ pollForChangesDiff Pb Cb)) := by
  constructor
  · intro S h
    rw [pollForChangesDiff, List.append_eq_nil]
    constructor
    · rw [List.filterMap_eq_nil_iff]
      rintro ⟨a, b⟩ hmem
      have : snapGet S a = some b := (snapGet_eq_some_iff h).mpr hmem
      simp [snapGetD, this]
    · rw [List.filterMap_eq_nil_iff]
      rintro ⟨a, b⟩ hmem
      have : snapGet S a = some b := (snapGet_eq_some_iff h).mpr hmem
      have hhas : snapHas S a = true := by simp [snapHas, this]
      simp [hhas]
  · intro P C Pb Cb hP hC hPp hCp c
    have hPb : (snapKeys Pb).Nodup := snapKeys_nodup_of_perm hP hPp
    have hCb : (snapKeys Cb).Nodup := snapKeys_nodup_of_perm hC hCp
    rw [mem_pollForChangesDiff hP hC, mem_pollForChangesDiff hPb hCb]
    simp only [snapGetD]
    rw [snapGet_perm hP hPp c.key, snapGet_perm hC hCp c.key]

/-- Witness for C4 at concrete inputs: the diff of a one-cell snapshot
against itself is empty, and a concrete change is detected regardless of
the entry order of the current snapshot. -/
theorem pollForChangesDiff_stable_witness :
    pollForChangesDiff [("1:A", "x")] [("1:A", "x")] = [] ∧
    (Change.mk "2:B" "" "y" ∈
        pollForChangesDiff [("1:A", "x")] [("1:A", "x"), ("2:B", "y")] ↔
      Change.mk "2:B" "" "y" ∈
        pollForChangesDiff [("1:A", "x")] [("2:B", "y"), ("1:A", "x")]) :=
  ⟨pollForChangesDiff_stable.1 [("1:A", "x")] (by decide),
   pollForChangesDiff_stable.2 [("1:A", "x")] [("1:A", "x"), ("2:B", "y")]
     [("1:A", "x")] [("2:B", "y"), ("1:A", "x")] (by decide) (by decide)
     (by decide) (by decide) (Change.mk "2:B" "" "y")⟩

/-- Events of the inbound reconciliation paths: setting a Redis ignore
key, an upsert into the store carrying an origin tag (column
last_modified_by), and a DELETE of a cell row. -/
inductive SyncEvent
  | setIgnore (key : String)
  | dbUpsert (key value origin : String)
  | dbDelete (key : String)
deriving DecidableEq

/-- The cell key written to the relational store by an event of the
remote-origin inbound path (upserts carrying origin sheet, and the
deletes issued for emptied cells), none for other events. -/
def remoteWriteKey : SyncEvent → Option String
  | .dbUpsert k _ o => if o = "sheet" then some k else none
  | .dbDelete k => some k
  | .setIgnore _ => none

/-- The write phase of CDCMonitor.pollForChanges: for each detected
change, first SET the ignore key with a 10 second TTL, then write to
the store with origin sheet (the source constant for origin remote):
a DELETE when the new value is empty, an upsert otherwise. -/
def pollApplyEvents : List Change → List SyncEvent
  | [] => []
  | c :: rest =>
      SyncEvent.setIgnore c.key ::
      (if c.newValue = "" then SyncEvent.dbDelete c.key
       else SyncEvent.dbUpsert c.key c.newValue "sheet") ::
      pollApplyEvents rest

/-- JS String.prototype.trim: strip leading and trailing whitespace,
modelled on the character list. -/
def strTrim (s : String) : String :=
  String.mk
    (((s.data.dropWhile Char.isWhitespace).reverse.dropWhile
        Char.isWhitespace).reverse)

/-- The bootstrap one-shot sync CDCMonitor.syncToDatabase: iterates the
fetched snapshot, skips values that are empty or whitespace-only (the
guard not-value or value.trim() empty), and upserts every other cell
with origin sheet.  No ignore key is set on this path. -/
def syncToDatabaseEvents : Snapshot → List SyncEvent
  | [] => []
  | kv :: rest =>
      if strTrim kv.2 = "" then syncToDatabaseEvents rest
      else SyncEvent.dbUpsert kv.1 kv.2 "sheet" :: syncToDatabaseEvents rest

/-- Ignore keys set by the events of a trace.  The 10 second TTL is not
modelled: the claims concern the moment of the write inside one
reconciliation pass, well within the TTL. -/
def ignoreMarks : List SyncEvent → List String
  | [] => []
  | SyncEvent.setIgnore k :: rest => k :: ignoreMarks rest
  | _ :: rest => ignoreMarks rest

/-- Claim C1 (amended): in the poll-loop write phase, every store write
with origin remote is preceded, within the same pass, by a setIgnore
event for the same cell key, so the IgnoreMark exists at the moment of
the write.  (The bootstrap one-shot sync is excluded: see the
counterexample.) -/
theorem pollForChanges_ignoreMark_before_remote_write
    (changes : List Change) (pre post : List SyncEvent) (e : SyncEvent)
    (k : String)
    (hsplit : pollApplyEvents changes = pre ++ e :: post)
    (hw : remoteWriteKey e = some k) :
    SyncEvent.setIgnore k ∈ pre := by
  induction changes generalizing pre post with
  | nil =>
      rw [pollApplyEvents] at hsplit
      cases pre <;> simp at hsplit
  | cons c rest ih =>
      rw [pollApplyEvents] at hsplit
      cases pre with
      | nil =>
          simp only [List.nil_append, List.cons.injEq] at hsplit
          rw [← hsplit.1, remoteWriteKey] at hw
          cases hw
      | cons x pre1 =>
          simp only [List.cons_append, List.cons.injEq] at hsplit
          obtain ⟨hx, hsplit⟩ := hsplit
          cases pre1 with
          | nil =>
              simp only [List.nil_append, List.cons.injEq] at hsplit
              obtain ⟨he, _⟩ := hsplit
              subst hx
              by_cases hnv : c.newValue = ""
              · rw [if_pos hnv] at he
                rw [← he, remoteWriteKey, Option.some.injEq] at hw
                subst hw
                exact List.mem_singleton.mpr rfl
              · rw [if_neg hnv] at he
                rw [← he, remoteWriteKey] at hw
                rw [if_pos rfl, Option.some.injEq] at hw
                subst hw
                exact List.mem_singleton.mpr rfl
          | cons y pre2 =>
              simp only [List.cons_append, List.cons.injEq] at hsplit
              obtain ⟨_, hsplit⟩ := hsplit
              exact List.mem_cons_of_mem x
                (List.mem_cons_of_mem y (ih pre2 post hsplit))

/-- Witness for C1 at a concrete input: a single non-empty change on
cell 1:A yields the trace setIgnore followed by the remote-origin
upsert, and the setIgnore for 1:A indeed precedes the write. -/
theorem pollForChanges_ignoreMark_before_remote_write_witness :
    SyncEvent.setIgnore "1:A" ∈ [SyncEvent.setIgnore "1:A"] :=
  pollForChanges_ignoreMark_before_remote_write
    [Change.mk "1:A" "" "x"] [SyncEvent.setIgnore "1:A"] []
    (SyncEvent.dbUpsert "1:A" "x" "sheet") "1:A" (by decide) (by decide)

/-- Claim C1 counterexample: the bootstrap one-shot sync
(CDCMonitor.syncToDatabase) writes to the store with origin remote
without any IgnoreMark having been set.  On the snapshot holding the
single cell 1:A with value x its event trace is exactly one
remote-origin upsert preceded by no setIgnore event at all, refuting
the claim as stated for the bootstrap path. -/
theorem syncToDatabase_write_without_ignoreMark :
    syncToDatabaseEvents [("1:A", "x")] =
      [SyncEvent.dbUpsert "1:A" "x" "sheet"] ∧
    remoteWriteKey (SyncEvent.dbUpsert "1:A" "x" "sheet") = some "1:A" ∧
    ignoreMarks (syncToDatabaseEvents [("1:A", "x")]) = [] := by
  refine ⟨?_, ?_, ?_⟩ <;> decide

/-- Effective poll interval of the CDC monitor: the source computes
POLL_INTERVAL as the maximum of 3000 and the configured value, here a
function of that configured value. -/
def POLL_INTERVAL (configured : Nat) : Nat := max 3000 configured

/-- Claim C9: configured poll intervals below 3000 are clamped to 3000,
and values of at least 3000 are used unchanged. -/
theorem POLL_INTERVAL_clamped :
    (∀ n, n < 3000 → POLL_INTERVAL n = 3000) ∧
    (∀ n, 3000 ≤ n → POLL_INTERVAL n = n) := by
  constructor <;> intro n h <;> rw [POLL_INTERVAL, Nat.max_def] <;>
    split <;> omega

/-- Witness for C9: the configured value 500 is clamped to 3000 and the
configured value 4000 is used unchanged. -/
theorem POLL_INTERVAL_clamped_witness :
    POLL_INTERVAL 500 = 3000 ∧ POLL_INTERVAL 4000 = 4000 :=
  ⟨POLL_INTERVAL_clamped.1 500 (by decide),
   POLL_INTERVAL_clamped.2 4000 (by decide)⟩

/-- Rate-limit backoff state of CDCMonitor: fields rateLimitedUntil,
rateLimitBackoffMs and consecutiveRateLimits, in milliseconds of
wall-clock time. -/
structure BackoffState where
  rateLimitedUntil : Nat
  rateLimitBackoffMs : Nat
  consecutiveRateLimits : Nat
deriving DecidableEq

/-- Initial field values of a fresh CDCMonitor: no deadline, 5000 ms
backoff, zero consecutive rate limits. -/
def initBackoff : BackoffState := BackoffState.mk 0 5000 0

/-- Outcome of one attempted Sheets API range read. -/
inductive FetchOutcome
  | ok
  | rateLimited
  | offline
deriving DecidableEq

/-- One call of CDCMonitor.fetchSheetData at wall-clock time now,
restricted to its backoff bookkeeping: inside the backoff window the
fetch is skipped and nothing changes; a success resets the backoff to
5000 ms and the counter to zero; a 429 increments the counter, doubles
the backoff capped at 60000 ms, and sets the deadline to now plus the
new backoff; any other error leaves the backoff fields untouched. -/
def fetchSheetDataStep (s : BackoffState) (now : Nat)
    (outcome : FetchOutcome) : BackoffState :=
  if now < s.rateLimitedUntil then s
  else
    match outcome with
    | .ok =>
        { s with consecutiveRateLimits := 0, rateLimitBackoffMs := 5000 }
    | .rateLimited =>
        let b := min 60000 (s.rateLimitBackoffMs * 2)
        { rateLimitedUntil := now + b, rateLimitBackoffMs := b,
          consecutiveRateLimits := s.consecutiveRateLimits + 1 }
    | .offline => s

/-- A run of fetch attempts from process start. -/
def runBackoff (evs : List (Nat × FetchOutcome)) : BackoffState :=
  evs.foldl (fun s e => fetchSheetDataStep s e.1 e.2) initBackoff

theorem fetchSheetDataStep_bounds (s : BackoffState) (now : Nat)
    (o : FetchOutcome) (h1 : 5000 ≤ s.rateLimitBackoffMs)
    (h2 : s.rateLimitBackoffMs ≤ 60000) :
    5000 ≤ (fetchSheetDataStep s now o).rateLimitBackoffMs ∧
      (fetchSheetDataStep s now o).rateLimitBackoffMs ≤ 60000 := by
  rw [fetchSheetDataStep.eq_def]
  split
  · exact ⟨h1, h2⟩
  · cases o with
    | ok => simp
    | rateLimited =>
        dsimp only
        omega
    | offline => exact ⟨h1, h2⟩

/-- Claim C5: starting from the initial 5000 ms backoff, after any
sequence of fetch attempts the backoff duration lies in the interval
from 5000 ms to 60000 ms; outside the backoff window a rate-limited
response sets the backoff to the double of the current one capped at
60000 ms and the deadline to now plus that new duration, and a
successful read resets the backoff to 5000 ms. -/
theorem rateLimitBackoff_bounds :
    (∀ evs : List (Nat × FetchOutcome),
      5000 ≤ (runBackoff evs).rateLimitBackoffMs ∧
        (runBackoff evs).rateLimitBackoffMs ≤ 60000) ∧
    (∀ (s : BackoffState) (now : Nat), ¬ now < s.rateLimitedUntil →
      (fetchSheetDataStep s now FetchOutcome.rateLimited).rateLimitBackoffMs
          = min 60000 (s.rateLimitBackoffMs * 2) ∧
      (fetchSheetDataStep s now FetchOutcome.rateLimited).rateLimitedUntil
          = now + min 60000 (s.rateLimitBackoffMs * 2) ∧
      (fetchSheetDataStep s now FetchOutcome.ok).rateLimitBackoffMs
          = 5000) := by
  constructor
  · have aux : ∀ (evs : List (Nat × FetchOutcome)) (s : BackoffState),
        5000 ≤ s.rateLimitBackoffMs → s.rateLimitBackoffMs ≤ 60000 →
        5000 ≤ (evs.foldl (fun t e => fetchSheetDataStep t e.1 e.2)
              s).rateLimitBackoffMs ∧
          (evs.foldl (fun t e => fetchSheetDataStep t e.1 e.2)
              s).rateLimitBackoffMs ≤ 60000 := by
      intro evs
      induction evs with
      | nil => intro s h1 h2; exact ⟨h1, h2⟩
      | cons e rest ih =>
          intro s h1 h2
          have hs := fetchSheetDataStep_bounds s e.1 e.2 h1 h2
          exact ih (fetchSheetDataStep s e.1 e.2) hs.1 hs.2
    intro evs
    exact aux evs initBackoff (by decide) (by decide)
  · intro s now h
    simp only [fetchSheetDataStep.eq_def, if_neg h]
    exact ⟨trivial, trivial, trivial⟩

/-- Witness for C5 at a concrete input: after one rate-limited attempt
at time zero the backoff is within bounds, and the step equations hold
at the initial state. -/
theorem rateLimitBackoff_bounds_witness :
    (5000 ≤ (runBackoff [(0, FetchOutcome.rateLimited)]).rateLimitBackoffMs ∧
      (runBackoff [(0, FetchOutcome.rateLimited)]).rateLimitBackoffMs
        ≤ 60000) ∧
    (fetchSheetDataStep initBackoff 0
        FetchOutcome.rateLimited).rateLimitBackoffMs
      = min 60000 (initBackoff.rateLimitBackoffMs * 2) :=
  ⟨rateLimitBackoff_bounds.1 [(0, FetchOutcome.rateLimited)],
   (rateLimitBackoff_bounds.2 initBackoff 0 (by decide)).1⟩

/-- A pending change queued in one of the Redis lists pending:to_sheet
or pending:to_db, recording row, col, value, source and the enqueue
timestamp. -/
structure PendingChange where
  row : Nat
  col : String
  value : String
  source : String
  timestamp : Nat
deriving DecidableEq

/-- The drain loop of CDCMonitor.processPendingChanges on one pending
list: pop the head (lpop), replay the corresponding single-cell write;
on success continue with the rest; on failure push the element back
onto the same list (rpush appends at the tail) and abort the drain.
The function replayOk tells whether the single-cell replay of an
element succeeds. -/
def processPendingChanges (replayOk : PendingChange → Bool) :
    List PendingChange → List PendingChange
  | [] => []
  | c :: rest =>
      if replayOk c then processPendingChanges replayOk rest
      else rest ++ [c]

/-- Claim C6: during a drain, elements are popped from the head and
replayed one at a time; a failed element is pushed back into the same
pending list and the drain aborts, hence every queued change whose
replay does not succeed is still present in the pending list after the
drain; and when every replay succeeds the drain empties the list. -/
theorem processPendingChanges_durability
    (replayOk : PendingChange → Bool) :
    (∀ (q : List PendingChange) (c : PendingChange), c ∈ q →
      replayOk c = false → c ∈ processPendingChanges replayOk q) ∧
    (∀ q : List PendingChange, (∀ c ∈ q, replayOk c = true) →
      processPendingChanges replayOk q = []) := by
  constructor
  · intro q
    induction q with
    | nil =>
        intro c h
        simp at h
    | cons d rest ih =>
        intro c hc hfail
        rw [processPendingChanges]
        by_cases hd : replayOk d = true
        · rw [if_pos hd]
          rcases List.mem_cons.mp hc with rfl | hmem
          · rw [hfail] at hd
            cases hd
          · exact ih c hmem hfail
        · rw [if_neg hd]
          rcases List.mem_cons.mp hc with rfl | hmem
          · exact List.mem_append_right _ (List.mem_singleton.mpr rfl)
          · exact List.mem_append_left _ hmem
  · intro q
    induction q with
    | nil => intro _; rfl
    | cons d rest ih =>
        intro h
        rw [processPendingChanges, if_pos (h d (List.mem_cons_self d rest))]
        exact ih (fun c hc => h c (List.mem_cons_of_mem d hc))

/-- Witness for C6 at concrete inputs: a change whose replay fails is
still in the drained list, and a list whose replays all succeed drains
to empty. -/
theorem processPendingChanges_durability_witness :
    PendingChange.mk 1 "A" "x" "sheet" 0 ∈
      processPendingChanges (fun _ => false)
        [PendingChange.mk 1 "A" "x" "sheet" 0] ∧
    processPendingChanges (fun _ => true)
      [PendingChange.mk 1 "A" "x" "sheet" 0] = [] :=
  ⟨(processPendingChanges_durability (fun _ => false)).1
      [PendingChange.mk 1 "A" "x" "sheet" 0]
      (PendingChange.mk 1 "A" "x" "sheet" 0) (by decide) rfl,
   (processPendingChanges_durability (fun _ => true)).2
      [PendingChange.mk 1 "A" "x" "sheet" 0] (fun c hc => rfl)⟩

/-- A row of the users table as returned by the ordered full-table read
at the start of CDCMonitor.syncFromDatabase: row_num, col_name, the
nullable cell_value, and last_modified_by (the origin tag; the source
value sheet denotes origin remote). -/
structure DbRow where
  row_num : Nat
  col_name : String
  cell_value : Option String
  last_modified_by : String
deriving DecidableEq

/-- The map key of a store row, the template string of row_num, a colon
and col_name. -/
def DbRow.key (r : DbRow) : String := cellKey r.row_num r.col_name

/-- The JS coalescing of row.cell_value with the empty string. -/
def DbRow.value (r : DbRow) : String := r.cell_value.getD ""

/-- One entry of the batchUpdate payload built by syncFromDatabase,
identified by its cell key and the pushed value (the source builds the
A1-notation range string from the same row and column). -/
structure SheetUpdate where
  key : String
  value : String
deriving DecidableEq

/-- The set cellsToSync accumulated by the first loop of
syncFromDatabase: the keys of all store rows read. -/
def cellsToSync (dbRows : List DbRow) : List String :=
  dbRows.map DbRow.key

/-- The first loop of syncFromDatabase: for every store row whose value
differs from the sheet-side value (empty when absent) and whose origin
differs from sheet, one value push.  The source records these same
entries in the list syncedCells. -/
def syncedCells (dbRows : List DbRow) (sheetData : Snapshot) :
    List SheetUpdate :=
  dbRows.filterMap (fun r =>
    if r.value ≠ snapGetD sheetData r.key ∧ r.last_modified_by ≠ "sheet"
    then some (SheetUpdate.mk r.key r.value)
    else none)

/-- The second loop of syncFromDatabase: for every sheet entry with a
non-empty value whose key is not among the store rows, one delete push
writing the empty string. -/
def deletePushes (dbRows : List DbRow) (sheetData : Snapshot) :
    List SheetUpdate :=
  sheetData.filterMap (fun kv =>
    if kv.1 ∉ cellsToSync dbRows ∧ kv.2 ≠ "" then
      some (SheetUpdate.mk kv.1 "")
    else none)

/-- The full batch passed to spreadsheets.values.batchUpdate: the value
pushes followed by the delete pushes. -/
def batchUpdates (dbRows : List DbRow) (sheetData : Snapshot) :
    List SheetUpdate :=
  syncedCells dbRows sheetData ++ deletePushes dbRows sheetData

/-- The store-side conditional origin rewrite issued after a successful
batch push for one synced cell: set last_modified_by to sheet on the
rows with this key whose origin is not already sheet. -/
def updateOriginIfNotRemote (db : List DbRow) (k : String) : List DbRow :=
  db.map (fun r =>
    if r.key = k ∧ r.last_modified_by ≠ "sheet" then
      { r with last_modified_by := "sheet" }
    else r)

/-- The per-cell origin rewrites after a successful batch push: one
conditional update per synced cell, in order. -/
def applyOriginRewrites (db : List DbRow) (cells : List SheetUpdate) :
    List DbRow :=
  cells.foldl (fun d c => updateOriginIfNotRemote d c.key) db

/-- The snapshot write-through after a successful batch push: overwrite
the in-memory snapshot entry of each synced cell with the pushed
value. -/
def snapshotWriteThrough (snap : Snapshot) (cells : List SheetUpdate) :
    Snapshot :=
  cells.foldl (fun s c => snapSet s c.key c.value) snap

theorem applyOriginRewrites_cons (db : List DbRow) (c : SheetUpdate)
    (rest : List SheetUpdate) :
    applyOriginRewrites db (c :: rest) =
      applyOriginRewrites (updateOriginIfNotRemote db c.key) rest := rfl

theorem snapshotWriteThrough_cons (snap : Snapshot) (c : SheetUpdate)
    (rest : List SheetUpdate) :
    snapshotWriteThrough snap (c :: rest) =
      snapshotWriteThrough (snapSet snap c.key c.value) rest := rfl

theorem snapGet_snapSet_self (s : Snapshot) (k v : String) :
    snapGet (snapSet s k v) k = some v := by
  induction s with
  | nil => simp [snapSet, snapGet]
  | cons kv rest ih =>
      rw [snapSet]
      by_cases h : kv.1 = k
      · rw [if_pos h, snapGet, if_pos rfl]
      · rw [if_neg h, snapGet, if_neg h]
        exact ih

theorem snapGet_snapSet_ne (s : Snapshot) (k v q : String) (h : q ≠ k) :
    snapGet (snapSet s k v) q = snapGet s q := by
  have hk : ¬ (k = q) := fun hh => h hh.symm
  induction s with
  | nil => simp [snapSet, snapGet, hk]
  | cons kv rest ih =>
      by_cases hkv : kv.1 = k
      · simp [snapSet, if_pos hkv, snapGet, hk, hkv]
      · simp [snapSet, if_neg hkv, snapGet, ih]

theorem snapGet_snapshotWriteThrough_not_mem (cells : List SheetUpdate) :
    ∀ (snap : Snapshot) (q : String), q ∉ cells.map SheetUpdate.key →
      snapGet (snapshotWriteThrough snap cells) q = snapGet snap q := by
  induction cells with
  | nil =>
      intro snap q h
      rfl
  | cons c rest ih =>
      intro snap q h
      rw [List.map_cons, List.mem_cons] at h
      push_neg at h
      rw [snapshotWriteThrough_cons, ih (snapSet snap c.key c.value) q h.2]
      exact snapGet_snapSet_ne snap c.key c.value q h.1

theorem snapGet_snapshotWriteThrough_mem (cells : List SheetUpdate)
    (hnd : (cells.map SheetUpdate.key).Nodup) :
    ∀ (snap : Snapshot) (c : SheetUpdate), c ∈ cells →
      snapGet (snapshotWriteThrough snap cells) c.key = some c.value := by
  induction cells with
  | nil =>
      intro snap c h
      simp at h
  | cons d rest ih =>
      intro snap c hc
      rw [List.map_cons, List.nodup_cons] at hnd
      obtain ⟨hd, hrest⟩ := hnd
      rw [snapshotWriteThrough_cons]
      rcases List.mem_cons.mp hc with rfl | hmem
      · rw [snapGet_snapshotWriteThrough_not_mem rest
          (snapSet snap c.key c.value) c.key hd]
        exact snapGet_snapSet_self snap c.key c.value
      · exact ih hrest (snapSet snap d.key d.value) c hmem

theorem map_filterMap_sublist {α β γ : Type} (f : α → Option β)
    (g : β → γ) (gh : α → γ) (hfg : ∀ a b, f a = some b → g b = gh a) :
    ∀ l : List α, ((l.filterMap f).map g).Sublist (l.map gh) := by
  intro l
  induction l with
  | nil => simp
  | cons a rest ih =>
      cases hfa : f a with
      | none =>
          rw [List.filterMap_cons_none hfa, List.map_cons]
          exact ih.cons _
      | some b =>
          rw [List.filterMap_cons_some hfa, List.map_cons, List.map_cons,
            hfg a b hfa]
          exact ih.cons₂ _

theorem syncedCells_keys_sublist (dbRows : List DbRow)
    (sheetData : Snapshot) :
    ((syncedCells dbRows sheetData).map SheetUpdate.key).Sublist
      (dbRows.map DbRow.key) := by
  rw [syncedCells]
  refine map_filterMap_sublist _ _ _ ?_ dbRows
  intro r u hf
  by_cases hcond : r.value ≠ snapGetD sheetData r.key ∧
      r.last_modified_by ≠ "sheet"
  · rw [if_pos hcond, Option.some.injEq] at hf
    rw [← hf]
  · rw [if_neg hcond] at hf
    cases hf

/-- Claim C2 (amended): after a successful outbound batch push, the
in-memory snapshot entry of every pushed cell that was built from a
store row (the syncedCells) equals the just-pushed value; the
empty-string delete pushes are not written through (see the
counterexample). -/
theorem syncFromDatabase_snapshot_writeThrough
    (dbRows : List DbRow) (sheetData snap : Snapshot)
    (hnd : (dbRows.map DbRow.key).Nodup) :
    ∀ u ∈ syncedCells dbRows sheetData,
      snapGet (snapshotWriteThrough snap (syncedCells dbRows sheetData))
          u.key = some u.value := by
  intro u hu
  exact snapGet_snapshotWriteThrough_mem (syncedCells dbRows sheetData)
    ((syncedCells_keys_sublist dbRows sheetData).nodup hnd) snap u hu

/-- Witness for C2 at a concrete input: a single user-origin store row
holding v at 1:A against an empty sheet is pushed, and the snapshot
entry of 1:A afterwards equals v. -/
theorem syncFromDatabase_snapshot_writeThrough_witness :
    snapGet (snapshotWriteThrough []
        (syncedCells [DbRow.mk 1 "A" (some "v") "user"] []))
        (SheetUpdate.mk "1:A" "v").key = some "v" :=
  syncFromDatabase_snapshot_writeThrough [DbRow.mk 1 "A" (some "v") "user"]
    [] [] (by decide) (SheetUpdate.mk "1:A" "v") (by decide)

/-- Claim C2 counterexample: with an empty store read and the sheet
holding 1:A with value x, the successful batch contains the delete push
of 1:A with the empty string, yet the snapshot write-through leaves the
in-memory entry for 1:A at x rather than the just-pushed empty value,
refuting the claim as stated for delete pushes. -/
theorem syncFromDatabase_deletePush_not_writtenThrough :
    SheetUpdate.mk "1:A" "" ∈ batchUpdates [] [("1:A", "x")] ∧
    snapGet (snapshotWriteThrough [("1:A", "x")]
        (syncedCells [] [("1:A", "x")])) "1:A" = some "x" := by
  refine ⟨?_, ?_⟩ <;> decide

theorem updateOrigin_key_rewritten (db : List DbRow) (k : String) :
    ∀ r ∈ updateOriginIfNotRemote db k, r.key = k →
      r.last_modified_by = "sheet" := by
  intro r hr hk
  rw [updateOriginIfNotRemote] at hr
  rcases List.mem_map.mp hr with ⟨r0, hr0, heq⟩
  by_cases hcond : r0.key = k ∧ r0.last_modified_by ≠ "sheet"
  · rw [if_pos hcond] at heq
    rw [← heq]
  · rw [if_neg hcond] at heq
    subst heq
    by_cases ho : r0.last_modified_by = "sheet"
    · exact ho
    · exact absurd ⟨hk, ho⟩ hcond

theorem updateOrigin_preserves (db : List DbRow) (k K : String)
    (h : ∀ r ∈ db, r.key = K → r.last_modified_by = "sheet") :
    ∀ r ∈ updateOriginIfNotRemote db k, r.key = K →
      r.last_modified_by = "sheet" := by
  intro r hr hK
  rw [updateOriginIfNotRemote] at hr
  rcases List.mem_map.mp hr with ⟨r0, hr0, heq⟩
  by_cases hcond : r0.key = k ∧ r0.last_modified_by ≠ "sheet"
  · rw [if_pos hcond] at heq
    rw [← heq]
  · rw [if_neg hcond] at heq
    subst heq
    exact h r0 hr0 hK

theorem applyOriginRewrites_preserves (cells : List SheetUpdate)
    (K : String) :
    ∀ db : List DbRow,
      (∀ r ∈ db, r.key = K → r.last_modified_by = "sheet") →
      ∀ r ∈ applyOriginRewrites db cells, r.key = K →
        r.last_modified_by = "sheet" := by
  induction cells with
  | nil =>
      intro db h
      exact h
  | cons c rest ih =>
      intro db h
      rw [applyOriginRewrites_cons]
      exact ih _ (updateOrigin_preserves db c.key K h)

theorem applyOriginRewrites_mem_origin (cells : List SheetUpdate) :
    ∀ db : List DbRow, ∀ r ∈ applyOriginRewrites db cells,
      r.key ∈ cells.map SheetUpdate.key → r.last_modified_by = "sheet" := by
  induction cells with
  | nil =>
      intro db r hr hk
      simp at hk
  | cons c rest ih =>
      intro db r hr hk
      rw [applyOriginRewrites_cons] at hr
      rw [List.map_cons, List.mem_cons] at hk
      rcases hk with hk | hk
      · exact applyOriginRewrites_preserves rest c.key
          (updateOriginIfNotRemote db c.key)
          (updateOrigin_key_rewritten db c.key) r hr hk
      · exact ih (updateOriginIfNotRemote db c.key) r hr hk

/-- Claim C3: the outbound batch never contains a value push for a
store row whose origin is sheet; the value pushes are exactly the store
rows whose origin differs from sheet and whose value differs from the
sheet-side value; the delete pushes write the empty string and target
only keys absent from the store read; and after a successful batch push
the conditional origin rewrite leaves every pushed cell's rows with
origin sheet. -/
theorem syncFromDatabase_origin_filter :
    (∀ (dbRows : List DbRow) (sheetData : Snapshot) (u : SheetUpdate),
      u ∈ syncedCells dbRows sheetData ↔
        ∃ r ∈ dbRows, r.key = u.key ∧ r.value = u.value ∧
          r.last_modified_by ≠ "sheet" ∧
          r.value ≠ snapGetD sheetData r.key) ∧
    (∀ (dbRows : List DbRow) (sheetData : Snapshot) (u : SheetUpdate),
      u ∈ deletePushes dbRows sheetData →
        u.value = "" ∧ u.key ∉ dbRows.map DbRow.key) ∧
    (∀ (dbRows : List DbRow) (sheetData : Snapshot) (r : DbRow),
      r ∈ applyOriginRewrites dbRows (syncedCells dbRows sheetData) →
      r.key ∈ (syncedCells dbRows sheetData).map SheetUpdate.key →
      r.last_modified_by = "sheet") := by
  refine ⟨?_, ?_, ?_⟩
  · intro dbRows sheetData u
    obtain ⟨uk, uv⟩ := u
    rw [syncedCells, List.mem_filterMap]
    constructor
    · rintro ⟨r, hr, hf⟩
      by_cases hcond : r.value ≠ snapGetD sheetData r.key ∧
          r.last_modified_by ≠ "sheet"
      · rw [if_pos hcond, Option.some.injEq, SheetUpdate.mk.injEq] at hf
        exact ⟨r, hr, hf.1, hf.2, hcond.2, hcond.1⟩
      · rw [if_neg hcond] at hf
        cases hf
    · rintro ⟨r, hr, hk, hv, ho, hne⟩
      refine ⟨r, hr, ?_⟩
      rw [if_pos ⟨hne, ho⟩, hk, hv]
  · intro dbRows sheetData u hu
    obtain ⟨uk, uv⟩ := u
    rw [deletePushes, List.mem_filterMap] at hu
    obtain ⟨kv, hkv, hf⟩ := hu
    by_cases hcond : kv.1 ∉ cellsToSync dbRows ∧ kv.2 ≠ ""
    · rw [if_pos hcond, Option.some.injEq, SheetUpdate.mk.injEq] at hf
      obtain ⟨hk, hv⟩ := hf
      subst hk
      exact ⟨hv.symm, hcond.1⟩
    · rw [if_neg hcond] at hf
      cases hf
  · intro dbRows sheetData r hr hk
    exact applyOriginRewrites_mem_origin (syncedCells dbRows sheetData)
      dbRows r hr hk

/-- Witness for C3 at concrete inputs: the user-origin row at 1:A with
value v is pushed against an empty sheet; a sheet-only cell 2:B is a
delete push with the empty value and a key outside the store; and after
the origin rewrites the pushed row carries origin sheet. -/
theorem syncFromDatabase_origin_filter_witness :
    SheetUpdate.mk "1:A" "v" ∈
      syncedCells [DbRow.mk 1 "A" (some "v") "user"] [] ∧
    ((SheetUpdate.mk "2:B" "").value = "" ∧
      (SheetUpdate.mk "2:B" "").key ∉ ([] : List DbRow).map DbRow.key) ∧
    (DbRow.mk 1 "A" (some "v") "sheet").last_modified_by = "sheet" :=
  ⟨(syncFromDatabase_origin_filter.1 [DbRow.mk 1 "A" (some "v") "user"] []
      (SheetUpdate.mk "1:A" "v")).mpr
      ⟨DbRow.mk 1 "A" (some "v") "user", by decide, by decide, by decide,
        by decide, by decide⟩,
   syncFromDatabase_origin_filter.2.1 [] [("2:B", "y")]
      (SheetUpdate.mk "2:B" "") (by decide),
   syncFromDatabase_origin_filter.2.2 [DbRow.mk 1 "A" (some "v") "user"] []
      (DbRow.mk 1 "A" (some "v") "sheet") (by decide) (by decide)⟩

/-- A JavaScript value as it can appear in a webhook payload field.
Numbers are modelled as integers: the source additionally rejects
non-integer numbers through Number.isInteger, a check that is vacuous
in this embedding. -/
inductive JsVal
  | undef
  | num (n : Int)
  | str (s : String)
deriving DecidableEq

/-- JS truthiness of a payload field: undefined, the number 0 and the
empty string are falsy. -/
def JsVal.truthy : JsVal → Bool
  | JsVal.undef => false
  | JsVal.num n => decide (n ≠ 0)
  | JsVal.str s => decide (s ≠ "")

/-- The body of a POST to the edit ingress, fields row, col, value and
sheetId, before validation. -/
structure WebhookPayload where
  row : JsVal
  col : JsVal
  value : JsVal
  sheetId : JsVal
deriving DecidableEq

/-- The anchored regex VALID_COL: exactly one uppercase letter. -/
def validColTest (s : String) : Bool :=
  match s.data with
  | [c] => decide ('A' ≤ c) && decide (c ≤ 'Z')
  | _ => false

/-- The anchored regex SHEET_ID_PATTERN: one or more characters, each
alphanumeric, underscore or hyphen. -/
def sheetIdPatternTest (s : String) : Bool :=
  decide (s ≠ "") &&
    s.data.all (fun c => c.isAlphanum || c == '_' || c == '-')

/-- Maximum accepted length of the value field. -/
def MAX_VALUE_LENGTH : Nat := 5000

/-- Maximum accepted row number. -/
def MAX_ROW : Int := 10000

/-- Outcome of handleWebhook: an error response with its HTTP status
code and which check produced it, the 200 no-op acknowledgement when an
IgnoreMark is present, or the 202 response after enqueuing a job. -/
inductive WebhookOutcome
  | reject (code : Nat) (reason : String)
  | ignoredNoop
  | queued
deriving DecidableEq

/-- The ingress controller handleWebhook: the presence check on the
four fields (JS falsiness), then in order the row type and range check,
the col regex check, the value type and length check and the sheetId
pattern check, each rejecting with status 400; then the IgnoreMark
consultation, acknowledging without enqueuing when the mark is present,
and finally the enqueue of the job with a 202 response. -/
def handleWebhook (p : WebhookPayload) (ignorePresent : Bool) :
    WebhookOutcome :=
  if JsVal.truthy p.row = false ∨ JsVal.truthy p.col = false ∨
      p.value = JsVal.undef ∨ JsVal.truthy p.sheetId = false then
    WebhookOutcome.reject 400 "missing"
  else
    match p.row with
    | JsVal.num r =>
        if r < 1 ∨ MAX_ROW < r then WebhookOutcome.reject 400 "row"
        else
          match p.col with
          | JsVal.str c =>
              if validColTest c = false then WebhookOutcome.reject 400 "col"
              else
                match p.value with
                | JsVal.str v =>
                    if MAX_VALUE_LENGTH < v.length then
                      WebhookOutcome.reject 400 "value"
                    else
                      match p.sheetId with
                      | JsVal.str sid =>
                          if sheetIdPatternTest sid = false then
                            WebhookOutcome.reject 400 "sheetId"
                          else if ignorePresent then
                            WebhookOutcome.ignoredNoop
                          else WebhookOutcome.queued
                      | _ => WebhookOutcome.reject 400 "sheetId"
                | _ => WebhookOutcome.reject 400 "value"
          | _ => WebhookOutcome.reject 400 "col"
    | _ => WebhookOutcome.reject 400 "row"

/-- Whether an outcome is a validation rejection. -/
def isReject : WebhookOutcome → Bool
  | WebhookOutcome.reject _ _ => true
  | _ => false

/-- Whether an outcome enqueued a job. -/
def enqueuesJob : WebhookOutcome → Bool
  | WebhookOutcome.queued => true
  | _ => false

/-- The four validation checks exactly as the claim words them: row an
integer in 1..10000, col a single letter between A and Z, value a
string of length at most 5000, and sheetId containing no characters
outside alphanumerics, hyphen and underscore.  Note that the empty
sheetId contains no characters outside that set. -/
def claimPassesValidation (p : WebhookPayload) : Bool :=
  (match p.row with
   | JsVal.num r => decide (1 ≤ r) && decide (r ≤ 10000)
   | _ => false) &&
  (match p.col with
   | JsVal.str c =>
      match c.data with
      | [ch] => decide ('A' ≤ ch) && decide (ch ≤ 'Z')
      | _ => false
   | _ => false) &&
  (match p.value with
   | JsVal.str v => decide (v.length ≤ 5000)
   | _ => false) &&
  (match p.sheetId with
   | JsVal.str s => s.data.all (fun c => c.isAlphanum || c == '_' || c == '-')
   | _ => false)

/-- The validation predicate as amended: the claim's four checks with
the sheetId condition strengthened to require a non-empty string, since
the source pattern requires at least one character and the presence
check also rejects the empty string. -/
def amendedValidPayload (p : WebhookPayload) : Prop :=
  (∃ r : Int, p.row = JsVal.num r ∧ 1 ≤ r ∧ r ≤ 10000) ∧
  (∃ c : String, p.col = JsVal.str c ∧
    ∃ ch : Char, c.data = [ch] ∧ 'A' ≤ ch ∧ ch ≤ 'Z') ∧
  (∃ v : String, p.value = JsVal.str v ∧ v.length ≤ 5000) ∧
  (∃ s : String, p.sheetId = JsVal.str s ∧ s ≠ "" ∧
    ∀ ch ∈ s.data, (ch.isAlphanum || ch == '_' || ch == '-') = true)

theorem handleWebhook_not_reject (p : WebhookPayload) (ig : Bool)
    (h : isReject (handleWebhook p ig) = false) :
    amendedValidPayload p := by
  obtain ⟨row, col, value, sheetId⟩ := p
  rw [handleWebhook] at h
  by_cases h0 : JsVal.truthy row = false ∨ JsVal.truthy col = false ∨
      value = JsVal.undef ∨ JsVal.truthy sheetId = false
  · rw [if_pos h0] at h
    simp [isReject] at h
  · rw [if_neg h0] at h
    push_neg at h0
    obtain ⟨hr0, hc0, hv0, hs0⟩ := h0
    cases row with
    | undef => simp [isReject] at h
    | str s => simp [isReject] at h
    | num r =>
        dsimp only at h
        by_cases hr : r < 1 ∨ MAX_ROW < r
        · rw [if_pos hr] at h
          simp [isReject] at h
        · rw [if_neg hr] at h
          push_neg at hr
          cases col with
          | undef => simp [isReject] at h
          | num n => simp [isReject] at h
          | str c =>
              dsimp only at h
              by_cases hc : validColTest c = false
              · rw [if_pos hc] at h
                simp [isReject] at h
              · rw [if_neg hc] at h
                cases value with
                | undef => exact absurd rfl hv0
                | num n => simp [isReject] at h
                | str v =>
                    dsimp only at h
                    by_cases hv : MAX_VALUE_LENGTH < v.length
                    · rw [if_pos hv] at h
                      simp [isReject] at h
                    · rw [if_neg hv] at h
                      cases sheetId with
                      | undef => simp [isReject] at h
                      | num n => simp [isReject] at h
                      | str sid =>
                          dsimp only at h
                          by_cases hsp : sheetIdPatternTest sid = false
                          · rw [if_pos hsp] at h
                            simp [isReject] at h
                          · rw [MAX_ROW] at hr
                            rw [MAX_VALUE_LENGTH] at hv
                            have hc2 : validColTest c = true := by
                              cases hxx : validColTest c
                              · exact absurd hxx hc
                              · rfl
                            rw [validColTest] at hc2
                            have hsp2 : sheetIdPatternTest sid = true := by
                              cases hxx : sheetIdPatternTest sid
                              · exact absurd hxx hsp
                              · rfl
                            rw [sheetIdPatternTest, Bool.and_eq_true,
                              decide_eq_true_eq, List.all_eq_true] at hsp2
                            refine ⟨⟨r, rfl, by omega, by omega⟩,
                              ⟨c, rfl, ?_⟩, ⟨v, rfl, by omega⟩,
                              ⟨sid, rfl, hsp2.1, hsp2.2⟩⟩
                            cases hcd : c.data with
                            | nil => rw [hcd] at hc2; cases hc2
                            | cons ch rest =>
                                cases rest with
                                | nil =>
                                    rw [hcd, Bool.and_eq_true,
                                      decide_eq_true_eq,
                                      decide_eq_true_eq] at hc2
                                    exact ⟨ch, rfl, hc2.1, hc2.2⟩
                                | cons ch2 rest2 =>
                                    rw [hcd] at hc2
                                    cases hc2

theorem handleWebhook_of_valid (p : WebhookPayload) (ig : Bool)
    (h : amendedValidPayload p) :
    handleWebhook p ig =
      if ig then WebhookOutcome.ignoredNoop else WebhookOutcome.queued := by
  obtain ⟨prow, pcol, pvalue, psheetId⟩ := p
  obtain ⟨⟨r, hrow, hr1, hr2⟩, ⟨c, hcol, ch, hch, hch1, hch2⟩,
    ⟨v, hval, hvlen⟩, ⟨s, hsid, hsne, hschars⟩⟩ := h
  simp only at hrow hcol hval hsid
  subst hrow
  subst hcol
  subst hval
  subst hsid
  have hcne : c ≠ "" := by
    intro hc
    rw [hc] at hch
    have hnil : ("" : String).data = [] := rfl
    rw [hnil] at hch
    cases hch
  have hvc : validColTest c = true := by
    rw [validColTest, hch]
    simp [hch1, hch2]
  have hsp : sheetIdPatternTest s = true := by
    rw [sheetIdPatternTest]
    simp only [Bool.and_eq_true, decide_eq_true_eq, List.all_eq_true]
    exact ⟨hsne, hschars⟩
  rw [handleWebhook]
  rw [if_neg ?hpres]
  case hpres =>
    push_neg
    refine ⟨?_, ?_, ?_, ?_⟩
    · simp only [JsVal.truthy]
      simp only [ne_eq, decide_eq_false_iff_not, not_not]
      omega
    · simp [JsVal.truthy, hcne]
    · simp
    · simp [JsVal.truthy, hsne]
  simp only
  rw [if_neg (by rw [MAX_ROW]; omega)]
  rw [if_neg (by rw [hvc]; simp)]
  rw [if_neg (by rw [MAX_VALUE_LENGTH]; omega)]
  rw [if_neg (by rw [hsp]; simp)]

/-- Claim C8 (amended): the ingress rejects with a 400 response and
without enqueuing a job exactly those payloads failing one of the
checks: row an integer in 1..10000, col a single uppercase letter,
value a string of at most 5000 characters, and sheetId a non-empty
string of alphanumerics, hyphen and underscore; a payload passing these
amended checks is never rejected by validation (it is queued, or
acknowledged as a no-op when an IgnoreMark is present).  The original
claim fails only for the empty sheetId: see the counterexample. -/
theorem handleWebhook_validation (p : WebhookPayload) (ig : Bool) :
    (isReject (handleWebhook p ig) = false ↔ amendedValidPayload p) ∧
    enqueuesJob (handleWebhook p ig) =
      (!isReject (handleWebhook p ig) && !ig) := by
  constructor
  · constructor
    · exact handleWebhook_not_reject p ig
    · intro h
      rw [handleWebhook_of_valid p ig h]
      cases ig
      · rfl
      · rfl
  · by_cases h : amendedValidPayload p
    · rw [handleWebhook_of_valid p ig h]
      cases ig
      · rfl
      · rfl
    · have hr : isReject (handleWebhook p ig) = true := by
        cases hb : isReject (handleWebhook p ig)
        · exact absurd (handleWebhook_not_reject p ig hb) h
        · rfl
      rw [hr]
      cases ho : handleWebhook p ig with
      | reject code reason => rfl
      | ignoredNoop =>
          rw [ho] at hr
          simp [isReject] at hr
      | queued =>
          rw [ho] at hr
          simp [isReject] at hr

/-- Claim C8 counterexample: the payload with row 1, col A, value x and
the empty-string sheetId passes all four checks exactly as the claim
words them (the empty string contains no character outside the allowed
set), yet the ingress rejects it with a 400 response without enqueuing:
the presence check treats the empty string as missing and the source
pattern requires at least one character. -/
theorem handleWebhook_emptySheetId_rejected :
    claimPassesValidation
      (WebhookPayload.mk (JsVal.num 1) (JsVal.str "A") (JsVal.str "x")
        (JsVal.str "")) = true ∧
    handleWebhook
      (WebhookPayload.mk (JsVal.num 1) (JsVal.str "A") (JsVal.str "x")
        (JsVal.str "")) false = WebhookOutcome.reject 400 "missing" ∧
    enqueuesJob (handleWebhook
      (WebhookPayload.mk (JsVal.num 1) (JsVal.str "A") (JsVal.str "x")
        (JsVal.str "")) false) = false := by
  refine ⟨?_, ?_, ?_⟩ <;> decide

/-- Events of the job-queue worker flow in sheetUpdateWorker.ts. -/
inductive WorkerEvent
  | acquireLock (row : Nat) (col owner : String)
  | releaseLock (row : Nat) (col owner : String)
  | dbUpdate (row : Nat) (col value origin : String)
  | dbInsert (row : Nat) (col value origin : String)
  | requestSync
deriving DecidableEq

/-- The lock owner string used by the worker: job, a colon, and the
job id. -/
def workerLockOwner (jobId : String) : String := "job:" ++ jobId

/-- Origin tag carried by a store write event, none for other
events. -/
def writeOrigin : WorkerEvent → Option String
  | WorkerEvent.dbUpdate _ _ _ o => some o
  | WorkerEvent.dbInsert _ _ _ o => some o
  | _ => none

/-- The worker body of sheetUpdateWorker for one job, as the trace of
its effects, given whether the cell lease was granted and whether a row
for the cell already exists: with the lease granted it reads the cell,
updates it with last_modified_by user when a row exists or inserts it
with last_modified_by user otherwise, releases the lease, and on
completion the completed handler calls the debounced outbound sync;
with the lease denied it throws, the catch block still attempts the
release (a no-op for a non-owner), and the failed job triggers no
sync. -/
def sheetUpdateWorkerEvents (jobId : String) (row : Nat)
    (col value : String) (lockGranted rowExists : Bool) :
    List WorkerEvent :=
  if lockGranted then
    [WorkerEvent.acquireLock row col (workerLockOwner jobId),
     (if rowExists then WorkerEvent.dbUpdate row col value "user"
      else WorkerEvent.dbInsert row col value "user"),
     WorkerEvent.releaseLock row col (workerLockOwner jobId),
     WorkerEvent.requestSync]
  else
    [WorkerEvent.releaseLock row col (workerLockOwner jobId)]

/-- Claim C7 (amended): for every edit event, the ingress consults the
IgnoreMark before enqueuing and acknowledges without enqueuing a job
when the mark is present; the worker acquires the cell lease with owner
job:<jobId>, applies the store write with origin user (an update when
the row exists, an insert otherwise), releases the lease afterwards,
and on completion the completed handler triggers the outbound sync
request; a job that fails to acquire the lease triggers no sync. -/
theorem sheetUpdateWorker_flow :
    (∀ p : WebhookPayload, amendedValidPayload p →
      handleWebhook p true = WebhookOutcome.ignoredNoop ∧
      enqueuesJob (handleWebhook p true) = false) ∧
    (∀ (jobId : String) (row : Nat) (col value : String)
        (rowExists : Bool), ∃ w : WorkerEvent,
      sheetUpdateWorkerEvents jobId row col value true rowExists =
        [WorkerEvent.acquireLock row col (workerLockOwner jobId), w,
         WorkerEvent.releaseLock row col (workerLockOwner jobId),
         WorkerEvent.requestSync] ∧
      writeOrigin w = some "user" ∧
      workerLockOwner jobId = "job:" ++ jobId) ∧
    (∀ (jobId : String) (row : Nat) (col value : String)
        (rowExists : Bool),
      WorkerEvent.requestSync ∉
        sheetUpdateWorkerEvents jobId row col value false rowExists) := by
  refine ⟨?_, ?_, ?_⟩
  · intro p h
    rw [handleWebhook_of_valid p true h]
    exact ⟨rfl, rfl⟩
  · intro jobId row col value rowExists
    cases rowExists
    · exact ⟨WorkerEvent.dbInsert row col value "user", rfl, rfl, rfl⟩
    · exact ⟨WorkerEvent.dbUpdate row col value "user", rfl, rfl, rfl⟩
  · intro jobId row col value rowExists
    simp [sheetUpdateWorkerEvents]

/-- Witness for C7 at a concrete input: a valid payload with an
IgnoreMark present is acknowledged as a no-op without enqueuing. -/
theorem sheetUpdateWorker_flow_witness :
    handleWebhook (WebhookPayload.mk (JsVal.num 3) (JsVal.str "B")
        (JsVal.str "hello") (JsVal.str "sheet1")) true =
      WebhookOutcome.ignoredNoop ∧
    enqueuesJob (handleWebhook (WebhookPayload.mk (JsVal.num 3)
        (JsVal.str "B") (JsVal.str "hello") (JsVal.str "sheet1"))
        true) = false :=
  sheetUpdateWorker_flow.1
    (WebhookPayload.mk (JsVal.num 3) (JsVal.str "B") (JsVal.str "hello")
      (JsVal.str "sheet1"))
    ⟨⟨3, rfl, by decide, by decide⟩,
     ⟨"B", rfl, 'B', by decide, by decide, by decide⟩,
     ⟨"hello", rfl, by decide⟩,
     ⟨"sheet1", rfl, by decide, by decide⟩⟩

/-- Claim C7 counterexample: at job id 1 for cell A1 the worker trace
acquires the lease with owner job:1, not worker:1 as the claim states,
and the write carries origin user, not worker, refuting the claim as
stated at this input. -/
theorem sheetUpdateWorker_owner_origin_cex :
    sheetUpdateWorkerEvents "1" 1 "A" "x" true true =
      [WorkerEvent.acquireLock 1 "A" "job:1",
       WorkerEvent.dbUpdate 1 "A" "x" "user",
       WorkerEvent.releaseLock 1 "A" "job:1",
       WorkerEvent.requestSync] ∧
    workerLockOwner "1" ≠ "worker:1" ∧
    ("user" : String) ≠ "worker" := by
  refine ⟨?_, ?_, ?_⟩ <;> decide

/-- A cell reference parsed out of a write query by parseAffectedCells:
row number and column letter. -/
structure CellRef where
  row : Nat
  col : String
deriving DecidableEq

/-- Lock events emitted by the SQL write path. -/
inductive SqlEvent
  | acquire (cell : CellRef)
  | release (cell : CellRef)
  | execQuery
deriving DecidableEq

/-- The lock-acquisition loop of executeSQL over the affected cells of
a write query, with acc the acquiredLocks gathered so far: a cell with
row 0 or an empty column is skipped without locking; on a granted
acquire the cell is appended to acquiredLocks and the loop continues;
on a denied acquire every previously acquired lock is released, in
acquisition order, and the loop reports the conflict.  Returns the
emitted lock events and the final acquiredLocks, none when a conflict
aborted the loop. -/
def sqlLockLoop (canLock : CellRef → Bool) :
    List CellRef → List CellRef → List SqlEvent × Option (List CellRef)
  | [], acc => ([], some acc)
  | c :: rest, acc =>
      if c.row = 0 ∨ c.col = "" then sqlLockLoop canLock rest acc
      else if canLock c then
        (SqlEvent.acquire c ::
          (sqlLockLoop canLock rest (acc ++ [c])).1,
         (sqlLockLoop canLock rest (acc ++ [c])).2)
      else (acc.map SqlEvent.release, none)

/-- Response of the executeSQL write path together with its effects. -/
structure SqlOutcome where
  status : Nat
  executed : Bool
  events : List SqlEvent
deriving DecidableEq

/-- The executeSQL write path around the query execution: run the lock
loop over the affected cells; on a conflict respond 409 without
executing the query, the loop having already released the earlier
locks; otherwise execute the query and release every acquired lock in
the finally block. -/
def executeSQLWrite (canLock : CellRef → Bool)
    (affectedCells : List CellRef) : SqlOutcome :=
  match sqlLockLoop canLock affectedCells [] with
  | (evs, none) => SqlOutcome.mk 409 false evs
  | (evs, some locks) =>
      SqlOutcome.mk 200 true
        (evs ++ SqlEvent.execQuery :: locks.map SqlEvent.release)

/-- Locks held after a trace of lock events, starting from held:
acquires append at the tail, releases remove the first matching
occurrence. -/
def heldLocksFrom (held : List CellRef) (evs : List SqlEvent) :
    List CellRef :=
  evs.foldl (fun hl e =>
    match e with
    | SqlEvent.acquire c => hl ++ [c]
    | SqlEvent.release c => hl.erase c
    | SqlEvent.execQuery => hl) held

/-- Locks held after a trace of lock events, from no locks held. -/
def heldLocks (evs : List SqlEvent) : List CellRef :=
  heldLocksFrom [] evs

theorem sqlLockLoop_conflict_events (canLock : CellRef → Bool) :
    ∀ (cells acc : List CellRef),
      (sqlLockLoop canLock cells acc).2 = none →
      ∃ ds : List CellRef,
        (sqlLockLoop canLock cells acc).1 =
          ds.map SqlEvent.acquire ++
            (acc ++ ds).map SqlEvent.release := by
  intro cells
  induction cells with
  | nil =>
      intro acc h
      simp [sqlLockLoop] at h
  | cons c rest ih =>
      intro acc h
      rw [sqlLockLoop] at h ⊢
      by_cases h0 : c.row = 0 ∨ c.col = ""
      · rw [if_pos h0] at h ⊢
        exact ih acc h
      · rw [if_neg h0] at h ⊢
        by_cases hl : canLock c = true
        · rw [if_pos hl] at h ⊢
          obtain ⟨ds, hds⟩ := ih (acc ++ [c]) h
          refine ⟨c :: ds, ?_⟩
          simp only [List.map_cons, List.cons_append]
          rw [hds, List.append_assoc]
          simp
        · rw [if_neg hl] at h ⊢
          exact ⟨[], by simp⟩

theorem heldLocksFrom_acquires (xs : List CellRef) :
    ∀ held : List CellRef,
      heldLocksFrom held (xs.map SqlEvent.acquire) = held ++ xs := by
  induction xs with
  | nil =>
      intro held
      simp [heldLocksFrom]
  | cons x rest ih =>
      intro held
      rw [List.map_cons]
      show heldLocksFrom (held ++ [x]) (rest.map SqlEvent.acquire) =
        held ++ x :: rest
      rw [ih (held ++ [x]), List.append_assoc]
      rfl

theorem heldLocksFrom_releases_self (xs : List CellRef) :
    heldLocksFrom xs (xs.map SqlEvent.release) = [] := by
  induction xs with
  | nil => rfl
  | cons x rest ih =>
      rw [List.map_cons]
      show heldLocksFrom ((x :: rest).erase x)
        (rest.map SqlEvent.release) = []
      rw [List.erase_cons_head]
      exact ih

theorem heldLocksFrom_append (held : List CellRef)
    (l1 l2 : List SqlEvent) :
    heldLocksFrom held (l1 ++ l2) =
      heldLocksFrom (heldLocksFrom held l1) l2 :=
  List.foldl_append _ _ _ _

/-- Claim C10: when the lock loop of the SQL write path is denied the
lease for some affected cell, the handler releases every lease acquired
earlier in the same request (no lock remains held by the emitted
events), responds 409 with a lock conflict, and never executes the
query, leaving the relational store unchanged. -/
theorem executeSQL_lockConflict_releases_all
    (canLock : CellRef → Bool) (cells : List CellRef)
    (h : (sqlLockLoop canLock cells []).2 = none) :
    (executeSQLWrite canLock cells).status = 409 ∧
    (executeSQLWrite canLock cells).executed = false ∧
    heldLocks (executeSQLWrite canLock cells).events = [] ∧
    SqlEvent.execQuery ∉ (executeSQLWrite canLock cells).events := by
  obtain ⟨ds, hds⟩ := sqlLockLoop_conflict_events canLock cells [] h
  rcases hp : sqlLockLoop canLock cells [] with ⟨evs, r⟩
  rw [hp] at h hds
  simp only at h hds
  cases r with
  | some l => cases h
  | none =>
      have he : executeSQLWrite canLock cells = SqlOutcome.mk 409 false evs := by
        rw [executeSQLWrite, hp]
      rw [he]
      rw [List.nil_append] at hds
      subst hds
      refine ⟨rfl, rfl, ?_, ?_⟩
      · rw [heldLocks, heldLocksFrom_append, heldLocksFrom_acquires,
          List.nil_append]
        exact heldLocksFrom_releases_self ds
      · simp

/-- Witness for C10 at a concrete input: with cell A1 lockable and cell
B2 not, the request acquires A1, is denied B2, releases A1, responds
409 and does not execute. -/
theorem executeSQL_lockConflict_releases_all_witness :
    (executeSQLWrite (fun c => decide (c.row = 1))
        [CellRef.mk 1 "A", CellRef.mk 2 "B"]).status = 409 ∧
    (executeSQLWrite (fun c => decide (c.row = 1))
        [CellRef.mk 1 "A", CellRef.mk 2 "B"]).executed = false ∧
    heldLocks (executeSQLWrite (fun c => decide (c.row = 1))
        [CellRef.mk 1 "A", CellRef.mk 2 "B"]).events = [] ∧
    SqlEvent.execQuery ∉ (executeSQLWrite (fun c => decide (c.row = 1))
        [CellRef.mk 1 "A", CellRef.mk 2 "B"]).events :=
  executeSQL_lockConflict_releases_all (fun c => decide (c.row = 1))
    [CellRef.mk 1 "A", CellRef.mk 2 "B"] (by decide)
